import Mathlib

/-!
Verification of the release manifest and versioning engine
(`cmd/releaser/main.go` of todo-releaser).

Strings are embedded as lists of characters (`Str`), machine integers as
`Int` with the explicit 64-bit range check performed by `strconv.Atoi`.
External effects (HTTP exchange, file system, git subprocesses) are
passed in as explicit data: the HTTP response as an `HttpResult` value,
the git tag listing as a list of lines, and the success of each external
write as a boolean in `RunEnv`, while the functions themselves follow the
Go source line by line.
-/

namespace TodoReleaser

/-- Strings are modelled as lists of characters. -/
abbrev Str := List Char

/-- Embeds Go `strings.Split(s, sep)` for a one-character separator:
splitting the empty string yields one empty field, and each occurrence of
the separator starts a new field. -/
def splitOnChar (c : Char) : Str → List Str
  | [] => [[]]
  | x :: xs =>
    match splitOnChar c xs with
    | [] => [[]]
    | y :: ys => if x = c then [] :: y :: ys else (x :: y) :: ys

/-- Embeds `strings.TrimPrefix(v, "v")`: drop one leading `v` if present. -/
def trimPrefixV : Str → Str
  | 'v' :: rest => rest
  | s => s

/-- Value of a string of decimal digits, most significant first. -/
def digitsToNat (ds : Str) : Nat :=
  ds.foldl (fun acc d => acc * 10 + (d.toNat - '0'.toNat)) 0

/-- Largest value of Go's 64-bit `int`. -/
def int64Max : Int := 2 ^ 63 - 1

/-- Smallest value of Go's 64-bit `int`. -/
def int64Min : Int := -(2 ^ 63)

/-- Decimal-digit run accepted by `strconv.Atoi` after the optional sign:
nonempty and all characters digits. -/
def decDigits? (ds : Str) : Option Nat :=
  if ds ≠ [] ∧ ds.all (fun d => d.isDigit) then some (digitsToNat ds) else none

/-- Sign and digit handling of `strconv.Atoi`: an optional leading `+` or
`-` sign followed by a nonempty run of decimal digits. -/
def atoiCore : Str → Option Int
  | [] => none
  | c :: rest =>
    if c = '+' then (decDigits? rest).map (fun k : Nat => (k : Int))
    else if c = '-' then (decDigits? rest).map (fun k : Nat => -(k : Int))
    else (decDigits? (c :: rest)).map (fun k : Nat => (k : Int))

/-- Embeds Go `strconv.Atoi`: an optional leading `+` or `-` sign followed
by a nonempty run of decimal digits, with the result required to fit in a
64-bit signed integer (out-of-range input is an error). -/
def atoi (s : Str) : Option Int :=
  (atoiCore s).bind fun n => if int64Min ≤ n ∧ n ≤ int64Max then some n else none

/-- Embeds `parseVersion` (main.go lines 207-230): strip one optional
leading `v`, split on `.`, require at least three fields, and parse the
first three with `strconv.Atoi`; any failure is a `MalformedVersion`
error, embedded as `none`. -/
def parseVersion (v : Str) : Option (Int × Int × Int) :=
  match splitOnChar '.' (trimPrefixV v) with
  | p0 :: p1 :: p2 :: _ =>
    match atoi p0, atoi p1, atoi p2 with
    | some major, some minor, some patch => some (major, minor, patch)
    | _, _, _ => none
  | _ => none

/-- Embeds the `IncrementType` enumeration (iota constants 0, 1, 2). -/
inductive IncrementType where
  | incrementPatch
  | incrementMinor
  | incrementMajor
deriving DecidableEq, Repr

/-- Numeric value of an `IncrementType` constant, as in the Go iota. -/
def IncrementType.toNat : IncrementType → Nat
  | .incrementPatch => 0
  | .incrementMinor => 1
  | .incrementMajor => 2

/-- Embeds `determineIncrementType` (main.go lines 232-248): fall back to
`Patch` when either side fails to parse, otherwise `Major` when the major
grows, else `Minor` when the minor grows, else `Patch`. -/
def determineIncrementType (oldVer newVer : Str) : IncrementType :=
  match parseVersion oldVer, parseVersion newVer with
  | some (oMaj, oMin, _), some (nMaj, nMin, _) =>
    if nMaj > oMaj then .incrementMajor
    else if nMin > oMin then .incrementMinor
    else .incrementPatch
  | _, _ => .incrementPatch

/-- Lexicographic (non-strict) order on (minor, patch) pairs: ascending
order produced by the `sort.Slice` comparator of `generateNewVersion`. -/
def vle (a b : Int × Int) : Prop :=
  a.1 < b.1 ∨ (a.1 = b.1 ∧ a.2 ≤ b.2)

/-- Strict lexicographic order on (minor, patch) pairs. -/
def vlt (a b : Int × Int) : Prop :=
  a.1 < b.1 ∨ (a.1 = b.1 ∧ a.2 < b.2)

instance : DecidableRel vle := fun a b => by unfold vle; infer_instance

instance : DecidableRel vlt := fun a b => by unfold vlt; infer_instance

instance : IsTotal (Int × Int) vle := ⟨by intro a b; unfold vle; omega⟩

instance : IsTrans (Int × Int) vle := ⟨by intro a b c hab hbc; unfold vle at *; omega⟩

/-- Minor/patch pair of a tag, as read by `generateNewVersion` (main.go
lines 268-284): split the whole tag on `.`, require at least three
fields, and parse fields 1 and 2 with `strconv.Atoi`. -/
def tagMinorPatch (tag : Str) : Option (Int × Int) :=
  match splitOnChar '.' tag with
  | _ :: p1 :: p2 :: _ =>
    match atoi p1, atoi p2 with
    | some m, some p => some (m, p)
    | _, _ => none
  | _ => none

/-- Pairs collected from the tags that start with the current week-bucket
string, as in the loop of `generateNewVersion`. -/
def collectVersions (pfx : Str) (tags : List Str) : List (Int × Int) :=
  tags.filterMap fun t => if pfx.isPrefixOf t then tagMinorPatch t else none

/-- Current (minor, patch) pair: sort the collected pairs ascending and
take the last, or `(0, -1)` when no tag of the bucket exists (main.go
lines 286-301). -/
def currentPair (pfx : Str) (tags : List Str) : Int × Int :=
  match (List.insertionSort vle (collectVersions pfx tags)).getLast? with
  | some last => last
  | none => (0, -1)

/-- Next (minor, patch) pair (main.go lines 303-311): a Minor or Major
scan bumps the minor and resets the patch, otherwise the patch grows. -/
def nextPair (incType : IncrementType) (pfx : Str) (tags : List Str) : Int × Int :=
  let cur := currentPair pfx tags
  if incType = .incrementMinor ∨ incType = .incrementMajor then (cur.1 + 1, 0)
  else (cur.1, cur.2 + 1)

/-- Rendering of an `Int` by `fmt.Sprintf("%d", ·)`. -/
def intToStr (i : Int) : Str :=
  if i < 0 then '-' :: Nat.toDigits 10 (-i).toNat else Nat.toDigits 10 i.toNat

/-- Embeds `generateNewVersion` (main.go lines 250-313). The week-bucket
string (`fmt.Sprintf("v%d%02d", year, week)` from the current date) and
the `git tag` listing lines are external inputs, passed as parameters. -/
def generateNewVersion (incType : IncrementType) (pfx : Str) (tags : List Str) : Str :=
  pfx ++ '.' :: intToStr (nextPair incType pfx tags).1
      ++ '.' :: intToStr (nextPair incType pfx tags).2

/-- Outcome of one tag resolution, as seen by the caller: Go's
`(string, error)` return value with the error payload abstracted. -/
abbrev ResolveOutcome := Except Unit Str

instance : DecidableEq ResolveOutcome := fun a b =>
  match a, b with
  | .error a1, .error b1 =>
    if h : a1 = b1 then isTrue (by rw [h])
    else isFalse (fun he => by injection he; exact h (by assumption))
  | .ok a1, .ok b1 =>
    if h : a1 = b1 then isTrue (by rw [h])
    else isFalse (fun he => by injection he; exact h (by assumption))
  | .error _, .ok _ => isFalse (fun h => Except.noConfusion h)
  | .ok _, .error _ => isFalse (fun h => Except.noConfusion h)

/-- Result of the single HTTP GET issued per service: a transport error,
or a status code together with the decoded body — `none` when the body is
not a well-formed `DockerHubTags` document, `some names` for the list of
`results[i].name` entries. -/
inductive HttpResult where
  | transportError
  | response (status : Nat) (body : Option (List Str))

/-- Namespace/image pair used to build the query URL (main.go lines
161-166): split the image reference on `/`; a single field is implicitly
namespaced under `library`, otherwise the first two fields are used and
any further fields are dropped. -/
def dockerHubQueryKey (image : Str) : Str × Str :=
  match splitOnChar '/' image with
  | [single] => ("library".toList, single)
  | p0 :: p1 :: _ => (p0, p1)
  | [] => ("library".toList, [])

/-- Embeds `getLatestTagFromDockerHub` (main.go lines 160-197) with the
HTTP exchange passed in as data: error on transport failure, non-200
status, or undecodable body; empty result for an empty tag list;
otherwise the first tag not named `latest`, falling back to the first
tag. -/
def getLatestTagFromDockerHub (image : Str) (http : HttpResult) : ResolveOutcome :=
  let _key := dockerHubQueryKey image
  match http with
  | .transportError => .error ()
  | .response status body =>
    if status ≠ 200 then .error ()
    else
      match body with
      | none => .error ()
      | some results =>
        if results.length = 0 then .ok []
        else
          match results.find? (fun t => t != "latest".toList) with
          | some t => .ok t
          | none => if results.length > 0 then .ok (results.headD []) else .ok []

/-- A tracked service of the manifest. -/
structure Service where
  name : Str
  image : Str
  version : Str
deriving DecidableEq, Repr

/-- The persisted manifest: aggregate release version plus the ordered
list of services. -/
structure Manifest where
  releaseVersion : Str
  services : List Service
deriving DecidableEq, Repr

/-- State accumulated by the scan loop of `main` (main.go lines 55-79):
the (possibly updated) services, the dirty flag, and the running maximum
increment severity. -/
structure ScanResult where
  services : List Service
  updated : Bool
  maxIncrement : IncrementType
deriving DecidableEq, Repr

/-- Embeds `if incType > maxIncrement { maxIncrement = incType }`. -/
def maxIncr (cur incT : IncrementType) : IncrementType :=
  if incT.toNat > cur.toNat then incT else cur

/-- Scan loop of `main` (main.go lines 58-79), with the loop accumulators
`updated` and `maxIncrement` threaded through and the service list
rebuilt position by position: a resolver error skips the service; a
resolved tag that is nonempty and differs from the recorded version
updates the service's version in place, sets the dirty flag and raises
the running maximum severity. -/
def scanFrom (resolve : Str → ResolveOutcome) (upd : Bool) (maxI : IncrementType) :
    List Service → ScanResult
  | [] => ⟨[], upd, maxI⟩
  | s :: rest =>
    match resolve s.image with
    | .error _ =>
      let r := scanFrom resolve upd maxI rest
      ⟨s :: r.services, r.updated, r.maxIncrement⟩
    | .ok tag =>
      if tag ≠ s.version ∧ tag ≠ ([] : Str) then
        let r := scanFrom resolve true (maxIncr maxI (determineIncrementType s.version tag)) rest
        ⟨{ s with version := tag } :: r.services, r.updated, r.maxIncrement⟩
      else
        let r := scanFrom resolve upd maxI rest
        ⟨s :: r.services, r.updated, r.maxIncrement⟩

/-- Full scan as `main` performs it: accumulators start at `false` and
`IncrementPatch`. -/
def scanServices (resolve : Str → ResolveOutcome) (ss : List Service) : ScanResult :=
  scanFrom resolve false .incrementPatch ss

/-- Externally visible side effects of one run, in order of occurrence. -/
inductive Effect where
  | saveFile (m : Manifest)
  | gitAdd (path : Str)
  | gitCommit (msg : Str)
  | gitTag (tag : Str)
deriving DecidableEq, Repr

/-- Per-run external environment: the resolver outcome per image, the
success of each fallible external write (in source order), the `git tag`
listing lines, and the current week-bucket string. -/
structure RunEnv where
  resolve : Str → ResolveOutcome
  save1Ok : Bool
  gitAdd1Ok : Bool
  gitCommit1Ok : Bool
  gitTagListOk : Bool
  save2Ok : Bool
  gitAdd2Ok : Bool
  gitCommit2Ok : Bool
  gitTagOk : Bool
  gitTagsOut : List Str
  weekBucket : Str

/-- Manifest path constant (main.go line 17). -/
def manifestPath : Str := "release_manifest.json".toList

/-- First commit message (main.go line 100). -/
def commitMsg1 : Str := "chore: update services to latest versions".toList

/-- Second commit message head, completed with the new version (main.go
line 128). -/
def commitMsg2Head : Str := "chore: release ".toList

/-- Embeds `main` (main.go lines 45-140) as a function from the loaded
manifest (`none` when loading failed) and the external environment to
the exit code and the ordered list of external effects: load failure
exits 1; an all-clean scan exits 0 with no effects; otherwise the run
saves, commits, computes the new version, saves and commits again and
tags, aborting with exit 1 at the first failing step. -/
def runMain (loadRes : Option Manifest) (env : RunEnv) : Nat × List Effect :=
  match loadRes with
  | none => (1, [])
  | some manifest =>
    let r := scanServices env.resolve manifest.services
    if r.updated = false then (0, [])
    else
      let m1 : Manifest := { manifest with services := r.services }
      if env.save1Ok = false then (1, []) else
      if env.gitAdd1Ok = false then (1, [.saveFile m1]) else
      if env.gitCommit1Ok = false then (1, [.saveFile m1, .gitAdd manifestPath]) else
      if env.gitTagListOk = false then
        (1, [.saveFile m1, .gitAdd manifestPath, .gitCommit commitMsg1])
      else
        let newVersion := generateNewVersion r.maxIncrement env.weekBucket env.gitTagsOut
        let m2 : Manifest := { m1 with releaseVersion := newVersion }
        if env.save2Ok = false then
          (1, [.saveFile m1, .gitAdd manifestPath, .gitCommit commitMsg1])
        else if env.gitAdd2Ok = false then
          (1, [.saveFile m1, .gitAdd manifestPath, .gitCommit commitMsg1, .saveFile m2])
        else if env.gitCommit2Ok = false then
          (1, [.saveFile m1, .gitAdd manifestPath, .gitCommit commitMsg1, .saveFile m2,
               .gitAdd manifestPath])
        else if env.gitTagOk = false then
          (1, [.saveFile m1, .gitAdd manifestPath, .gitCommit commitMsg1, .saveFile m2,
               .gitAdd manifestPath, .gitCommit (commitMsg2Head ++ newVersion)])
        else
          (0, [.saveFile m1, .gitAdd manifestPath, .gitCommit commitMsg1, .saveFile m2,
               .gitAdd manifestPath, .gitCommit (commitMsg2Head ++ newVersion),
               .gitTag newVersion])

/-- JSON documents, as exchanged with `encoding/json`. -/
inductive Json where
  | null
  | str (s : Str)
  | num (n : Int)
  | bool (b : Bool)
  | arr (elems : List Json)
  | obj (fields : List (Str × Json))

/-- JSON encoding of one service under the struct tags of `Service`. -/
def encodeService (s : Service) : Json :=
  .obj [("name".toList, .str s.name), ("image".toList, .str s.image),
        ("version".toList, .str s.version)]

/-- Embeds `saveManifest` (main.go lines 152-158) up to byte rendering:
the JSON document `json.MarshalIndent` produces for a `Manifest` under
its struct tags. Writing the rendered bytes to the file is external I/O;
indentation does not change the document. -/
def saveManifest (m : Manifest) : Json :=
  .obj [("release_version".toList, .str m.releaseVersion),
        ("services".toList, .arr (m.services.map encodeService))]

/-- Field lookup of `json.Unmarshal`: for a duplicated key the last
occurrence wins. -/
def lookupField (fields : List (Str × Json)) (key : Str) : Option Json :=
  (fields.reverse.find? (fun f => f.1 == key)).map (fun f => f.2)

/-- Decoding of a string-typed struct field by `json.Unmarshal`: a
missing field or a JSON `null` leaves the zero value, any non-string
value is a decode error. -/
def decodeStrField (fields : List (Str × Json)) (key : Str) : Option Str :=
  match lookupField fields key with
  | none => some []
  | some (.str s) => some s
  | some .null => some []
  | some _ => none

/-- Decoding of one `Service` by `json.Unmarshal`. -/
def decodeService (j : Json) : Option Service :=
  match j with
  | .obj fields =>
    match decodeStrField fields "name".toList, decodeStrField fields "image".toList,
          decodeStrField fields "version".toList with
    | some n, some i, some v => some ⟨n, i, v⟩
    | _, _, _ => none
  | .null => some ⟨[], [], []⟩
  | _ => none

/-- Element-wise decoding of a JSON array into a service slice. -/
def decodeServiceList : List Json → Option (List Service)
  | [] => some []
  | j :: js =>
    match decodeService j, decodeServiceList js with
    | some s, some ss => some (s :: ss)
    | _, _ => none

/-- Decoding of the `services` slice field: missing or `null` leaves the
zero (empty) slice, an array decodes element-wise, anything else is a
decode error. -/
def decodeServicesField (fields : List (Str × Json)) : Option (List Service) :=
  match lookupField fields "services".toList with
  | none => some []
  | some .null => some []
  | some (.arr xs) => decodeServiceList xs
  | some _ => none

/-- Embeds `loadManifest` (main.go lines 142-150) up to byte parsing: the
`json.Unmarshal` decoding of a JSON document into a `Manifest`. Reading
and parsing the bytes is the external I/O and JSON-library layer; `none`
is the `ManifestUnreadable` decode error. -/
def loadManifest (j : Json) : Option Manifest :=
  match j with
  | .obj fields =>
    match decodeStrField fields "release_version".toList, decodeServicesField fields with
    | some rv, some ss => some ⟨rv, ss⟩
    | _, _ => none
  | .null => some ⟨[], []⟩
  | _ => none

/-- Spec-side characterization of the strings accepted by `strconv.Atoi`,
together with their value: an optional `+` or `-` sign followed by a
nonempty run of decimal digits, the value being the signed decimal value,
within the 64-bit signed range. -/
def IsIntLiteral (l : Str) (n : Int) : Prop :=
  ∃ ds : Str, ds ≠ [] ∧ (∀ d ∈ ds, d.isDigit = true) ∧
    ((l = ds ∧ n = (digitsToNat ds : Int)) ∨
     (l = '+' :: ds ∧ n = (digitsToNat ds : Int)) ∨
     (l = '-' :: ds ∧ n = -(digitsToNat ds : Int))) ∧
    int64Min ≤ n ∧ n ≤ int64Max

/-- Spec-side per-service transformation of one scan pass: the update the
loop body applies to service `i` of the manifest, stated as a standalone
map. -/
def updateService (resolve : Str → ResolveOutcome) (s : Service) : Service :=
  match resolve s.image with
  | .ok tag => if tag ≠ s.version ∧ tag ≠ ([] : Str) then { s with version := tag } else s
  | .error _ => s

/-- Concrete resolver for example runs: one known image with one newer
tag, anything else a registry failure. -/
def resolveExample : Str → ResolveOutcome := fun img =>
  if img == "nginx".toList then .ok ("1.27".toList) else .error ()

/-- Concrete service for example runs. -/
def serviceExample : Service := ⟨"web".toList, "nginx".toList, "1.0".toList⟩

/-- Concrete manifest for example runs. -/
def manifestExample : Manifest := ⟨"v202451.0.0".toList, [serviceExample]⟩

/-- Environment where every external operation succeeds. -/
def envAllOk : RunEnv :=
  { resolve := resolveExample, save1Ok := true, gitAdd1Ok := true, gitCommit1Ok := true,
    gitTagListOk := true, save2Ok := true, gitAdd2Ok := true, gitCommit2Ok := true,
    gitTagOk := true, gitTagsOut := [], weekBucket := "v202452".toList }

/-- Environment whose resolver always fails. -/
def envAllErr : RunEnv := { envAllOk with resolve := fun _ => .error () }

/-! ## Helper lemmas -/

theorem vle_refl (a : Int × Int) : vle a a := Or.inr ⟨rfl, le_refl _⟩

theorem vle_getLast : ∀ (l : List (Int × Int)), l.Sorted vle →
    ∀ x ∈ l, ∀ m, l.getLast? = some m → vle x m
  | [] => by intro _ x hx; simp at hx
  | [a] => by
    intro _ x hx m hm
    simp only [List.mem_singleton] at hx
    simp only [List.getLast?_singleton, Option.some.injEq] at hm
    subst hx; subst hm; exact vle_refl x
  | a :: b :: t => by
    intro hs x hx m hm
    rw [List.getLast?_cons_cons] at hm
    rcases List.mem_cons.mp hx with rfl | hx'
    · exact (List.sorted_cons.mp hs).1 m (List.mem_of_getLast?_eq_some hm)
    · exact vle_getLast (b :: t) (List.sorted_cons.mp hs).2 x hx' m hm

theorem vle_currentPair {pfx : Str} {tags : List Str} {x : Int × Int}
    (hx : x ∈ collectVersions pfx tags) : vle x (currentPair pfx tags) := by
  unfold currentPair
  have hmem : x ∈ List.insertionSort vle (collectVersions pfx tags) :=
    (List.perm_insertionSort vle (collectVersions pfx tags)).mem_iff.mpr hx
  cases hl : (List.insertionSort vle (collectVersions pfx tags)).getLast? with
  | none =>
    rw [List.getLast?_eq_none_iff] at hl
    rw [hl] at hmem
    simp at hmem
  | some m =>
    exact vle_getLast _ (List.sorted_insertionSort vle _) x hmem m hl

theorem decDigits?_eq_some {ds : Str} {k : Nat} :
    decDigits? ds = some k ↔ ds ≠ [] ∧ (∀ d ∈ ds, d.isDigit = true) ∧ k = digitsToNat ds := by
  unfold decDigits?
  split_ifs with h
  · simp only [Option.some.injEq]
    constructor
    · rintro rfl
      exact ⟨h.1, List.all_eq_true.mp h.2, rfl⟩
    · rintro ⟨_, _, rfl⟩; rfl
  · simp only [reduceCtorEq, false_iff]
    rintro ⟨h1, h2, _⟩
    exact h ⟨h1, List.all_eq_true.mpr h2⟩

theorem atoiCore_cons (c : Char) (rest : Str) :
    atoiCore (c :: rest) =
      if c = '+' then (decDigits? rest).map (fun k : Nat => (k : Int))
      else if c = '-' then (decDigits? rest).map (fun k : Nat => -(k : Int))
      else (decDigits? (c :: rest)).map (fun k : Nat => (k : Int)) := rfl

theorem atoi_eq_some_iff {l : Str} {n : Int} : atoi l = some n ↔ IsIntLiteral l n := by
  constructor
  · intro h
    unfold atoi at h
    simp only [Option.bind_eq_some] at h
    obtain ⟨n', hcore, hrange⟩ := h
    have hr : int64Min ≤ n' ∧ n' ≤ int64Max ∧ n' = n := by
      by_cases hb : int64Min ≤ n' ∧ n' ≤ int64Max
      · rw [if_pos hb] at hrange
        exact ⟨hb.1, hb.2, by injection hrange⟩
      · rw [if_neg hb] at hrange; exact absurd hrange (by simp)
    obtain ⟨hlo, hhi, rfl⟩ := hr
    cases l with
    | nil => exact absurd hcore (by simp [atoiCore])
    | cons c rest =>
      rw [atoiCore_cons] at hcore
      by_cases hplus : c = '+'
      · subst hplus
        rw [if_pos rfl] at hcore
        simp only [Option.map_eq_some'] at hcore
        obtain ⟨k, hk, rfl⟩ := hcore
        obtain ⟨h1, h2, rfl⟩ := decDigits?_eq_some.mp hk
        exact ⟨rest, h1, h2, Or.inr (Or.inl ⟨rfl, rfl⟩), hlo, hhi⟩
      · by_cases hminus : c = '-'
        · subst hminus
          rw [if_neg (by decide), if_pos rfl] at hcore
          simp only [Option.map_eq_some'] at hcore
          obtain ⟨k, hk, rfl⟩ := hcore
          obtain ⟨h1, h2, rfl⟩ := decDigits?_eq_some.mp hk
          exact ⟨rest, h1, h2, Or.inr (Or.inr ⟨rfl, rfl⟩), hlo, hhi⟩
        · rw [if_neg hplus, if_neg hminus] at hcore
          simp only [Option.map_eq_some'] at hcore
          obtain ⟨k, hk, rfl⟩ := hcore
          obtain ⟨h1, h2, rfl⟩ := decDigits?_eq_some.mp hk
          exact ⟨c :: rest, h1, h2, Or.inl ⟨rfl, rfl⟩, hlo, hhi⟩
  · rintro ⟨ds, hne, hdig, hshape, hlo, hhi⟩
    unfold atoi
    rcases hshape with ⟨rfl, rfl⟩ | ⟨rfl, rfl⟩ | ⟨rfl, rfl⟩
    · cases hl : l with
      | nil => exact absurd hl hne
      | cons c rest =>
        subst hl
        have hdec : decDigits? (c :: rest) = some (digitsToNat (c :: rest)) :=
          decDigits?_eq_some.mpr ⟨hne, hdig, rfl⟩
        have hc : c.isDigit = true := hdig c (List.mem_cons_self c rest)
        have hcp : c ≠ '+' := fun h => by subst h; simp [Char.isDigit] at hc
        have hcm : c ≠ '-' := fun h => by subst h; simp [Char.isDigit] at hc
        rw [atoiCore_cons, if_neg hcp, if_neg hcm, hdec]
        simp only [Option.map_some', Option.some_bind]
        rw [if_pos ⟨hlo, hhi⟩]
    · have hdec : decDigits? ds = some (digitsToNat ds) :=
        decDigits?_eq_some.mpr ⟨hne, hdig, rfl⟩
      rw [atoiCore_cons, if_pos rfl, hdec]
      simp only [Option.map_some', Option.some_bind]
      rw [if_pos ⟨hlo, hhi⟩]
    · have hdec : decDigits? ds = some (digitsToNat ds) :=
        decDigits?_eq_some.mpr ⟨hne, hdig, rfl⟩
      rw [atoiCore_cons, if_neg (by decide : ¬('-' = '+')), if_pos rfl, hdec]
      simp only [Option.map_some', Option.some_bind]
      rw [if_pos ⟨hlo, hhi⟩]

/-! ## Claim C1: monotonic allocation within a week bucket -/

/-- C1: for every tag list, week bucket and scan severity, the
(minor, patch) pair of the version emitted by `generateNewVersion` is
strictly greater, lexicographically with minor primary, than the pair of
every existing tag that starts with the bucket string and has two parsed
numeric components; in particular, on existing tags `v202452.0.0` and
`v202452.0.1`, a Patch scan yields `v202452.0.2` and a Minor scan yields
`v202452.1.0`. -/
theorem generateNewVersion_monotone :
    (∀ (pfx : Str) (tags : List Str) (incType : IncrementType) (t : Str) (m p : Int),
        t ∈ tags → pfx.isPrefixOf t = true → tagMinorPatch t = some (m, p) →
        vlt (m, p) (nextPair incType pfx tags)) ∧
    (∀ (incType : IncrementType) (pfx : Str) (tags : List Str),
        generateNewVersion incType pfx tags =
          pfx ++ '.' :: intToStr (nextPair incType pfx tags).1
              ++ '.' :: intToStr (nextPair incType pfx tags).2) ∧
    generateNewVersion .incrementPatch "v202452".toList
        ["v202452.0.0".toList, "v202452.0.1".toList] = "v202452.0.2".toList ∧
    generateNewVersion .incrementMinor "v202452".toList
        ["v202452.0.0".toList, "v202452.0.1".toList] = "v202452.1.0".toList := by
  refine ⟨?_, fun _ _ _ => rfl, by decide, by decide⟩
  intro pfx tags incType t m p ht hpre htag
  have hx : (m, p) ∈ collectVersions pfx tags := by
    unfold collectVersions
    exact List.mem_filterMap.mpr ⟨t, ht, by rw [hpre]; simpa using htag⟩
  have hle := vle_currentPair hx
  unfold vle at hle
  unfold nextPair vlt
  split_ifs with h
  · dsimp only at hle ⊢
    omega
  · dsimp only at hle ⊢
    omega

/-- Witness for C1: the pair of `v202452.0.1` is strictly below the pair
allocated by a Patch scan over the example tag list. -/
theorem generateNewVersion_monotone_witness :
    vlt (0, 1) (nextPair .incrementPatch "v202452".toList
      ["v202452.0.0".toList, "v202452.0.1".toList]) :=
  generateNewVersion_monotone.1 "v202452".toList
    ["v202452.0.0".toList, "v202452.0.1".toList] .incrementPatch
    "v202452.0.1".toList 0 1 (by decide) (by decide) (by decide)

/-! ## Claim C2: increment severity classification -/

/-- C2 counterexample: on old version `v2.0.0` and new version `v1.5.0`
both sides parse, the majors differ (2 versus 1), yet the code returns
`Minor`; the claim requires `Minor` only when the majors are equal, so it
predicts `Patch` here. -/
theorem determineIncrementType_counterexample :
    determineIncrementType "v2.0.0".toList "v1.5.0".toList = .incrementMinor ∧
    parseVersion "v2.0.0".toList = some (2, 0, 0) ∧
    parseVersion "v1.5.0".toList = some (1, 5, 0) ∧
    (2 : Int) ≠ 1 := by decide

/-- C2 (amended): `determineIncrementType` returns `Major` iff both
strings parse and the new major is greater; it returns `Minor` iff both
parse, the new major is NOT greater (equal or even smaller), and the new
minor is greater; and `Patch` in every other case, including whenever
either input fails to parse. -/
theorem determineIncrementType_spec (oldVer newVer : Str) :
    (determineIncrementType oldVer newVer = .incrementMajor ↔
      ∃ o n, parseVersion oldVer = some o ∧ parseVersion newVer = some n ∧ o.1 < n.1) ∧
    (determineIncrementType oldVer newVer = .incrementMinor ↔
      ∃ o n, parseVersion oldVer = some o ∧ parseVersion newVer = some n ∧
        n.1 ≤ o.1 ∧ o.2.1 < n.2.1) ∧
    (determineIncrementType oldVer newVer = .incrementPatch ↔
      ¬ ∃ o n, parseVersion oldVer = some o ∧ parseVersion newVer = some n ∧
          (o.1 < n.1 ∨ (n.1 ≤ o.1 ∧ o.2.1 < n.2.1))) := by
  unfold determineIncrementType
  cases ho : parseVersion oldVer with
  | none => simp
  | some o =>
    cases hn : parseVersion newVer with
    | none =>
      obtain ⟨oMaj, oMin, oPat⟩ := o
      simp
    | some n =>
      obtain ⟨oMaj, oMin, oPat⟩ := o
      obtain ⟨nMaj, nMin, nPat⟩ := n
      dsimp only
      refine ⟨?_, ?_, ?_⟩
      · split_ifs with h1 h2 <;> simp_all
      · split_ifs with h1 h2 <;> simp_all
      · split_ifs with h1 h2 <;> simp_all

/-- Witness for C2: `v1.0.0` to `v1.1.0` is classified `Minor`. -/
theorem determineIncrementType_spec_witness :
    determineIncrementType "v1.0.0".toList "v1.1.0".toList = .incrementMinor :=
  (determineIncrementType_spec "v1.0.0".toList "v1.1.0".toList).2.1.mpr
    ⟨(1, 0, 0), (1, 1, 0), by decide, by decide, by decide, by decide⟩

/-! ## Claim C3: version parsing -/

/-- C3 counterexample: `1.-2.3` parses successfully with a negative minor
component, though the claim requires every accepted segment to be a
non-negative integer and every component returned to be non-negative. -/
theorem parseVersion_counterexample :
    parseVersion "1.-2.3".toList = some (1, -2, 3) ∧ (-2 : Int) < 0 := by decide

/-- C3 (amended): `parseVersion` succeeds exactly when the string, after
stripping one optional leading `v`, splits into at least three
dot-separated segments whose first three are each an optionally signed
base-10 integer within the 64-bit range (segments beyond the third are
ignored); on success the components are exactly those integers, which may
be negative; in every other case it fails. -/
theorem parseVersion_eq_some_iff {v : Str} {a b c : Int} :
    parseVersion v = some (a, b, c) ↔
    ∃ p0 p1 p2 rest, splitOnChar '.' (trimPrefixV v) = p0 :: p1 :: p2 :: rest ∧
      atoi p0 = some a ∧ atoi p1 = some b ∧ atoi p2 = some c := by
  constructor
  · intro h
    unfold parseVersion at h
    cases hsp : splitOnChar '.' (trimPrefixV v) with
    | nil => rw [hsp] at h; simp at h
    | cons p0 ps =>
      cases ps with
      | nil => rw [hsp] at h; simp at h
      | cons p1 ps2 =>
        cases ps2 with
        | nil => rw [hsp] at h; simp at h
        | cons p2 rest =>
          rw [hsp] at h
          dsimp only at h
          cases h0 : atoi p0 with
          | none => rw [h0] at h; simp at h
          | some x =>
            cases h1 : atoi p1 with
            | none => rw [h0, h1] at h; simp at h
            | some y =>
              cases h2 : atoi p2 with
              | none => rw [h0, h1, h2] at h; simp at h
              | some z =>
                rw [h0, h1, h2] at h
                obtain ⟨rfl, rfl, rfl⟩ : x = a ∧ y = b ∧ z = c := by simpa using h
                exact ⟨p0, p1, p2, rest, rfl, h0, h1, h2⟩
  · rintro ⟨p0, p1, p2, rest, hsp, h0, h1, h2⟩
    unfold parseVersion
    rw [hsp]
    dsimp only
    rw [h0, h1, h2]

theorem parseVersion_spec (v : Str) :
    ((∃ trip, parseVersion v = some trip) ↔
      ∃ p0 p1 p2 rest a b c,
        splitOnChar '.' (trimPrefixV v) = p0 :: p1 :: p2 :: rest ∧
        IsIntLiteral p0 a ∧ IsIntLiteral p1 b ∧ IsIntLiteral p2 c) ∧
    (∀ a b c, parseVersion v = some (a, b, c) →
      ∃ p0 p1 p2 rest,
        splitOnChar '.' (trimPrefixV v) = p0 :: p1 :: p2 :: rest ∧
        IsIntLiteral p0 a ∧ IsIntLiteral p1 b ∧ IsIntLiteral p2 c) := by
  constructor
  · constructor
    · rintro ⟨⟨a, b, c⟩, htrip⟩
      obtain ⟨p0, p1, p2, rest, hsp, h0, h1, h2⟩ := parseVersion_eq_some_iff.mp htrip
      exact ⟨p0, p1, p2, rest, a, b, c, hsp, atoi_eq_some_iff.mp h0,
        atoi_eq_some_iff.mp h1, atoi_eq_some_iff.mp h2⟩
    · rintro ⟨p0, p1, p2, rest, a, b, c, hsp, h0, h1, h2⟩
      exact ⟨(a, b, c), parseVersion_eq_some_iff.mpr ⟨p0, p1, p2, rest, hsp,
        atoi_eq_some_iff.mpr h0, atoi_eq_some_iff.mpr h1, atoi_eq_some_iff.mpr h2⟩⟩
  · intro a b c htrip
    obtain ⟨p0, p1, p2, rest, hsp, h0, h1, h2⟩ := parseVersion_eq_some_iff.mp htrip
    exact ⟨p0, p1, p2, rest, hsp, atoi_eq_some_iff.mp h0,
      atoi_eq_some_iff.mp h1, atoi_eq_some_iff.mp h2⟩

/-- Witness for C3: `v1.2.3` splits into literal segments 1, 2, 3. -/
theorem parseVersion_spec_witness :
    ∃ p0 p1 p2 rest,
      splitOnChar '.' (trimPrefixV "v1.2.3".toList) = p0 :: p1 :: p2 :: rest ∧
      IsIntLiteral p0 1 ∧ IsIntLiteral p1 2 ∧ IsIntLiteral p2 3 :=
  (parseVersion_spec "v1.2.3".toList).2 1 2 3 (by decide)

/-! ## Claim C4: first allocation in an empty bucket -/

/-- C4 counterexample: with no existing tag in the bucket, a Minor scan
emits `v202452.1.0`, not `v202452.0.0` as the claim states for every
severity. -/
theorem generateNewVersion_emptyBucket_counterexample :
    generateNewVersion .incrementMinor "v202452".toList [] = "v202452.1.0".toList ∧
    "v202452.1.0".toList ≠ "v202452.0.0".toList := by decide

/-- C4 (amended): when no existing tag starts with the current bucket
string, a Patch scan emits `<bucket>.0.0` while Minor and Major scans
emit `<bucket>.1.0`. -/
theorem generateNewVersion_emptyBucket (pfx : Str) (tags : List Str)
    (h : ∀ t ∈ tags, pfx.isPrefixOf t = false) :
    generateNewVersion .incrementPatch pfx tags = pfx ++ ".0.0".toList ∧
    generateNewVersion .incrementMinor pfx tags = pfx ++ ".1.0".toList ∧
    generateNewVersion .incrementMajor pfx tags = pfx ++ ".1.0".toList := by
  have hcol : collectVersions pfx tags = [] := by
    unfold collectVersions
    rw [List.filterMap_eq_nil_iff]
    intro t ht
    rw [h t ht]
    rfl
  have hcur : currentPair pfx tags = (0, -1) := by
    unfold currentPair
    rw [hcol]
    rfl
  refine ⟨?_, ?_, ?_⟩ <;>
    · unfold generateNewVersion nextPair
      rw [hcur]
      simp only [List.append_assoc]
      exact congrArg (fun l => pfx ++ l) (by decide)

/-- Witness for C4: with one unrelated tag the three severities allocate
`v202452.0.0`, `v202452.1.0` and `v202452.1.0`. -/
theorem generateNewVersion_emptyBucket_witness :
    generateNewVersion .incrementPatch "v202452".toList ["other".toList] =
        "v202452".toList ++ ".0.0".toList ∧
    generateNewVersion .incrementMinor "v202452".toList ["other".toList] =
        "v202452".toList ++ ".1.0".toList ∧
    generateNewVersion .incrementMajor "v202452".toList ["other".toList] =
        "v202452".toList ++ ".1.0".toList :=
  generateNewVersion_emptyBucket "v202452".toList ["other".toList] (by decide)

/-! ## Claim C5: tag selection from a successful registry response -/

theorem find?_of_first {α : Type} (p : α → Bool) :
    ∀ (l : List α) (i : Nat) (t : α), l[i]? = some t → p t = true →
      (∀ j t', j < i → l[j]? = some t' → p t' = false) → l.find? p = some t
  | [], i, t => by simp
  | a :: l, 0, t => by
    intro h hp _
    simp only [List.getElem?_cons_zero, Option.some.injEq] at h
    subst h
    simp [List.find?_cons, hp]
  | a :: l, i + 1, t => by
    intro h hp hbefore
    have ha : p a = false := hbefore 0 a (Nat.succ_pos i) (by simp)
    rw [List.find?_cons, ha]
    simp only [List.getElem?_cons_succ] at h
    exact find?_of_first p l i t h hp
      (fun j t' hj hg => hbefore (j + 1) t' (Nat.succ_lt_succ hj) (by simpa using hg))

theorem getLatestTag_ok_reduce (image : Str) (results : List Str) :
    getLatestTagFromDockerHub image (.response 200 (some results)) =
      if results.length = 0 then .ok []
      else
        match results.find? (fun t => t != "latest".toList) with
        | some t => .ok t
        | none => if results.length > 0 then .ok (results.headD []) else .ok [] := by
  unfold getLatestTagFromDockerHub
  dsimp only
  rw [if_neg (by decide : ¬((200 : Nat) ≠ 200))]

/-- C5: on a successful registry response, an empty tag list resolves to
the empty result with no error; otherwise the first tag in registry order
whose name is not `latest` is returned; and when every returned tag is
named `latest`, the result is `latest` itself rather than an empty
result. -/
theorem getLatestTag_selection (image : Str) (results : List Str) :
    (results = [] →
      getLatestTagFromDockerHub image (.response 200 (some results)) = .ok []) ∧
    (∀ (i : Nat) (t : Str), results[i]? = some t → t ≠ "latest".toList →
      (∀ (j : Nat) (t' : Str), j < i → results[j]? = some t' → t' = "latest".toList) →
      getLatestTagFromDockerHub image (.response 200 (some results)) = .ok t) ∧
    ((∀ t ∈ results, t = "latest".toList) → results ≠ [] →
      getLatestTagFromDockerHub image (.response 200 (some results)) =
        .ok ("latest".toList)) := by
  refine ⟨?_, ?_, ?_⟩
  · rintro rfl; rfl
  · intro i t hget hne hbefore
    have hfind : results.find? (fun x => x != "latest".toList) = some t := by
      apply find?_of_first _ results i t hget
      · simpa using hne
      · intro j t' hj hg
        have ht' := hbefore j t' hj hg
        simp [ht']
    have hlen : ¬(results.length = 0) := by
      intro h0
      rw [List.length_eq_zero] at h0
      subst h0
      simp at hget
    rw [getLatestTag_ok_reduce, if_neg hlen, hfind]
  · intro hall hne
    have hfind : results.find? (fun x => x != "latest".toList) = none :=
      List.find?_eq_none.mpr (fun x hx => by simp [hall x hx])
    cases results with
    | nil => exact absurd rfl hne
    | cons h rest =>
      rw [getLatestTag_ok_reduce, if_neg (by simp), hfind]
      dsimp only
      rw [if_pos (by simp), List.headD_cons, hall h (List.mem_cons_self h rest)]

/-- Witness for C5: with tags `latest` then `1.27`, the selection skips
the floating alias and returns `1.27`. -/
theorem getLatestTag_selection_witness :
    getLatestTagFromDockerHub "nginx".toList
      (.response 200 (some ["latest".toList, "1.27".toList])) = .ok ("1.27".toList) :=
  (getLatestTag_selection "nginx".toList ["latest".toList, "1.27".toList]).2.1 1
    "1.27".toList (by decide) (by decide)
    (by
      intro j t' hj hg
      have hj0 : j = 0 := Nat.lt_one_iff.mp hj
      subst hj0
      simpa using hg.symm)

/-! ## Claim C7: the scan is a per-service frame-preserving update -/

theorem scanFrom_services_getElem? (resolve : Str → ResolveOutcome) :
    ∀ (ss : List Service) (upd : Bool) (maxI : IncrementType) (i : Nat),
      (scanFrom resolve upd maxI ss).services[i]? =
        (ss[i]?).map (updateService resolve)
  | [], upd, maxI, i => by simp [scanFrom]
  | s :: rest, upd, maxI, i => by
    unfold scanFrom
    cases hres : resolve s.image with
    | error e =>
      dsimp only
      cases i with
      | zero => simp [updateService, hres]
      | succ n => simpa using scanFrom_services_getElem? resolve rest upd maxI n
    | ok tag =>
      dsimp only
      split_ifs with hcond
      · cases i with
        | zero => simp [updateService, hres, hcond]
        | succ n =>
          simpa using (scanFrom_services_getElem? resolve rest true
            (maxIncr maxI (determineIncrementType s.version tag)) n)
      · cases i with
        | zero => simp [updateService, hres, hcond]
        | succ n => simpa using scanFrom_services_getElem? resolve rest upd maxI n

theorem scanFrom_services_length (resolve : Str → ResolveOutcome) :
    ∀ (ss : List Service) (upd : Bool) (maxI : IncrementType),
      (scanFrom resolve upd maxI ss).services.length = ss.length
  | [], upd, maxI => rfl
  | s :: rest, upd, maxI => by
    unfold scanFrom
    cases hres : resolve s.image with
    | error e =>
      dsimp only
      simp [scanFrom_services_length resolve rest upd maxI]
    | ok tag =>
      dsimp only
      split_ifs with hcond
      · simp [scanFrom_services_length resolve rest true
          (maxIncr maxI (determineIncrementType s.version tag))]
      · simp [scanFrom_services_length resolve rest upd maxI]

/-- C7: the scan maps each service independently: the count and order of
services are preserved, each service's version becomes the resolved tag
exactly when resolution succeeded with a nonempty tag different from the
recorded version and stays unchanged in every other case, the name and
image fields are never modified, and the release version field of the
manifest is untouched by the scan. -/
theorem scan_frame (resolve : Str → ResolveOutcome) (ss : List Service) :
    ((scanServices resolve ss).services.length = ss.length) ∧
    (∀ i : Nat, (scanServices resolve ss).services[i]? =
      (ss[i]?).map (updateService resolve)) ∧
    (∀ s : Service, (updateService resolve s).name = s.name ∧
      (updateService resolve s).image = s.image) ∧
    (∀ (s : Service) (tag : Str), resolve s.image = .ok tag → tag ≠ s.version →
      tag ≠ [] → (updateService resolve s).version = tag) ∧
    (∀ s : Service, (∀ tag, resolve s.image = .ok tag → (tag = s.version ∨ tag = [])) →
      (updateService resolve s).version = s.version) ∧
    (∀ m : Manifest,
      (Manifest.mk m.releaseVersion (scanServices resolve m.services).services).releaseVersion
        = m.releaseVersion) := by
  refine ⟨scanFrom_services_length resolve ss false .incrementPatch,
    fun i => scanFrom_services_getElem? resolve ss false .incrementPatch i, ?_, ?_, ?_,
    fun _ => rfl⟩
  · intro s
    unfold updateService
    cases resolve s.image with
    | error e => dsimp only; exact ⟨rfl, rfl⟩
    | ok tag =>
      dsimp only
      split_ifs with hcond
      · exact ⟨rfl, rfl⟩
      · exact ⟨rfl, rfl⟩
  · intro s tag hres hne hnil
    unfold updateService
    rw [hres]
    dsimp only
    rw [if_pos ⟨hne, hnil⟩]
  · intro s hall
    unfold updateService
    cases hres : resolve s.image with
    | error e => rfl
    | ok tag =>
      dsimp only
      rw [if_neg]
      rintro ⟨hne, hnil⟩
      rcases hall tag hres with h | h
      · exact hne h
      · exact hnil h

/-- Witness for C7: the example resolver updates the example service's
version to the resolved tag. -/
theorem scan_frame_witness :
    (updateService resolveExample serviceExample).version = "1.27".toList :=
  (scan_frame resolveExample [serviceExample]).2.2.2.1 serviceExample
    "1.27".toList (by decide) (by decide) (by decide)

/-! ## Claim C6: clean scan exits with no effects; the engine is idempotent -/

theorem scanFrom_nil (resolve : Str → ResolveOutcome) (upd : Bool) (maxI : IncrementType) :
    scanFrom resolve upd maxI [] = ⟨[], upd, maxI⟩ := rfl

theorem scanFrom_cons_error (resolve : Str → ResolveOutcome) (upd : Bool)
    (maxI : IncrementType) (s : Service) (rest : List Service) {e : Unit}
    (h : resolve s.image = .error e) :
    scanFrom resolve upd maxI (s :: rest) =
      ⟨s :: (scanFrom resolve upd maxI rest).services,
       (scanFrom resolve upd maxI rest).updated,
       (scanFrom resolve upd maxI rest).maxIncrement⟩ := by
  conv_lhs => rw [scanFrom]
  rw [h]

theorem scanFrom_cons_ok_update (resolve : Str → ResolveOutcome) (upd : Bool)
    (maxI : IncrementType) (s : Service) (rest : List Service) (tag : Str)
    (h : resolve s.image = .ok tag) (hc : tag ≠ s.version ∧ tag ≠ ([] : Str)) :
    scanFrom resolve upd maxI (s :: rest) =
      ⟨{ s with version := tag } ::
        (scanFrom resolve true (maxIncr maxI (determineIncrementType s.version tag)) rest).services,
       (scanFrom resolve true (maxIncr maxI (determineIncrementType s.version tag)) rest).updated,
       (scanFrom resolve true (maxIncr maxI (determineIncrementType s.version tag)) rest).maxIncrement⟩ := by
  conv_lhs => rw [scanFrom]
  rw [h]
  dsimp only
  rw [if_pos hc]

theorem scanFrom_cons_ok_skip (resolve : Str → ResolveOutcome) (upd : Bool)
    (maxI : IncrementType) (s : Service) (rest : List Service) (tag : Str)
    (h : resolve s.image = .ok tag) (hc : ¬(tag ≠ s.version ∧ tag ≠ ([] : Str))) :
    scanFrom resolve upd maxI (s :: rest) =
      ⟨s :: (scanFrom resolve upd maxI rest).services,
       (scanFrom resolve upd maxI rest).updated,
       (scanFrom resolve upd maxI rest).maxIncrement⟩ := by
  conv_lhs => rw [scanFrom]
  rw [h]
  dsimp only
  rw [if_neg hc]

theorem scanFrom_rescan (resolve : Str → ResolveOutcome) :
    ∀ (ss : List Service) (u1 : Bool) (m1 : IncrementType) (u2 : Bool) (m2 : IncrementType),
      scanFrom resolve u2 m2 ((scanFrom resolve u1 m1 ss).services) =
        ⟨(scanFrom resolve u1 m1 ss).services, u2, m2⟩
  | [], u1, m1, u2, m2 => by rw [scanFrom_nil]; rfl
  | s :: rest, u1, m1, u2, m2 => by
    cases hres : resolve s.image with
    | error e =>
      rw [scanFrom_cons_error resolve u1 m1 s rest hres]
      dsimp only
      rw [scanFrom_cons_error resolve u2 m2 s _ hres]
      rw [scanFrom_rescan resolve rest u1 m1 u2 m2]
    | ok tag =>
      by_cases hc : tag ≠ s.version ∧ tag ≠ ([] : Str)
      · rw [scanFrom_cons_ok_update resolve u1 m1 s rest tag hres hc]
        dsimp only
        rw [scanFrom_cons_ok_skip resolve u2 m2 { s with version := tag } _ tag hres
          (by simp)]
        rw [scanFrom_rescan resolve rest true
          (maxIncr m1 (determineIncrementType s.version tag)) u2 m2]
      · rw [scanFrom_cons_ok_skip resolve u1 m1 s rest tag hres hc]
        dsimp only
        rw [scanFrom_cons_ok_skip resolve u2 m2 s _ tag hres hc]
        rw [scanFrom_rescan resolve rest u1 m1 u2 m2]

/-- C6: a scan that marks no service updated makes the run exit
successfully with no file write, no commit and no tag; consequently a
second run over the manifest produced by a first scan, against the same
resolver outcomes, changes no service and performs no external
operation. -/
theorem runMain_idempotent :
    (∀ (m : Manifest) (env : RunEnv),
      (scanServices env.resolve m.services).updated = false →
      runMain (some m) env = (0, [])) ∧
    (∀ (m : Manifest) (env : RunEnv) (rv : Str),
      (scanServices env.resolve ((scanServices env.resolve m.services).services)).services
          = (scanServices env.resolve m.services).services ∧
      (scanServices env.resolve ((scanServices env.resolve m.services).services)).updated
          = false ∧
      runMain (some ⟨rv, (scanServices env.resolve m.services).services⟩) env = (0, [])) := by
  have hpart1 : ∀ (m : Manifest) (env : RunEnv),
      (scanServices env.resolve m.services).updated = false →
      runMain (some m) env = (0, []) := by
    intro m env h
    unfold runMain
    dsimp only
    rw [if_pos h]
  refine ⟨hpart1, ?_⟩
  intro m env rv
  have hre := scanFrom_rescan env.resolve m.services false .incrementPatch false .incrementPatch
  refine ⟨?_, ?_, ?_⟩
  · unfold scanServices
    rw [hre]
  · unfold scanServices
    rw [hre]
  · exact hpart1 ⟨rv, (scanServices env.resolve m.services).services⟩ env
      (by unfold scanServices; dsimp only; rw [hre])

/-- Witness for C6: a run whose resolver always fails marks nothing
updated and exits 0 with no effects. -/
theorem runMain_idempotent_witness :
    runMain (some manifestExample) envAllErr = (0, []) :=
  runMain_idempotent.1 manifestExample envAllErr (by decide)

/-! ## Claim C8: registry failures are reported and non-fatal -/

/-- C8: a transport error or a non-200 status makes the resolver report
an error; the scan leaves the failing service untouched and continues
with the remaining services in order; and when the manifest loads and
every external write succeeds, the run exits 0 whatever the resolver
outcomes are. -/
theorem registry_failure_nonfatal :
    (∀ image : Str, getLatestTagFromDockerHub image .transportError = .error ()) ∧
    (∀ (image : Str) (status : Nat) (body : Option (List Str)), status ≠ 200 →
      getLatestTagFromDockerHub image (.response status body) = .error ()) ∧
    (∀ (resolve : Str → ResolveOutcome) (upd : Bool) (maxI : IncrementType)
      (s : Service) (rest : List Service), resolve s.image = .error () →
      scanFrom resolve upd maxI (s :: rest) =
        ⟨s :: (scanFrom resolve upd maxI rest).services,
         (scanFrom resolve upd maxI rest).updated,
         (scanFrom resolve upd maxI rest).maxIncrement⟩) ∧
    (∀ (m : Manifest) (env : RunEnv),
      env.save1Ok = true → env.gitAdd1Ok = true → env.gitCommit1Ok = true →
      env.gitTagListOk = true → env.save2Ok = true → env.gitAdd2Ok = true →
      env.gitCommit2Ok = true → env.gitTagOk = true →
      (runMain (some m) env).1 = 0) := by
  refine ⟨fun _ => rfl, ?_, ?_, ?_⟩
  · intro image status body h
    unfold getLatestTagFromDockerHub
    dsimp only
    rw [if_pos h]
  · intro resolve upd maxI s rest h
    exact scanFrom_cons_error resolve upd maxI s rest h
  · intro m env h1 h2 h3 h4 h5 h6 h7 h8
    unfold runMain
    dsimp only
    split_ifs <;> simp_all

/-- Witness for C8: a 500 status with no readable body is a resolver
error. -/
theorem registry_failure_nonfatal_witness :
    getLatestTagFromDockerHub "nginx".toList (.response 500 none) = .error () :=
  registry_failure_nonfatal.2.1 "nginx".toList 500 none (by decide)

/-! ## Claim C10: the registry query key keeps only two reference segments -/

theorem splitOnChar_ne_nil (c : Char) : ∀ l : Str, splitOnChar c l ≠ []
  | [] => by simp [splitOnChar]
  | x :: xs => by
    unfold splitOnChar
    cases hr : splitOnChar c xs with
    | nil => exact absurd hr (splitOnChar_ne_nil c xs)
    | cons y ys =>
      dsimp only
      split_ifs <;> simp

theorem splitOnChar_not_mem {c : Char} : ∀ {l : Str}, c ∉ l → splitOnChar c l = [l]
  | [], _ => rfl
  | x :: xs, h => by
    have hx : x ≠ c := fun he => h (he ▸ List.mem_cons_self x xs)
    have hxs : c ∉ xs := fun hm => h (List.mem_cons_of_mem x hm)
    unfold splitOnChar
    rw [splitOnChar_not_mem hxs]
    dsimp only
    rw [if_neg hx]

theorem splitOnChar_headD_takeWhile (c : Char) :
    ∀ l : Str, (splitOnChar c l).headD [] = l.takeWhile (fun x => x != c)
  | [] => rfl
  | x :: xs => by
    unfold splitOnChar
    cases hr : splitOnChar c xs with
    | nil => exact absurd hr (splitOnChar_ne_nil c xs)
    | cons y ys =>
      dsimp only
      split_ifs with hx
      · subst hx
        simp [List.takeWhile_cons]
      · have := splitOnChar_headD_takeWhile c xs
        rw [hr] at this
        simp only [List.headD_cons] at this
        simp [List.takeWhile_cons, hx, this]

theorem splitOnChar_append {c : Char} :
    ∀ {a : Str}, c ∉ a → ∀ b : Str, splitOnChar c (a ++ c :: b) = a :: splitOnChar c b
  | [], _, b => by
    show splitOnChar c (c :: b) = [] :: splitOnChar c b
    conv_lhs => rw [splitOnChar]
    cases hr : splitOnChar c b with
    | nil => exact absurd hr (splitOnChar_ne_nil c b)
    | cons y ys =>
      dsimp only
      rw [if_pos rfl]
  | x :: a', h, b => by
    have hx : x ≠ c := fun he => h (he ▸ List.mem_cons_self x a')
    have ha' : c ∉ a' := fun hm => h (List.mem_cons_of_mem x hm)
    show splitOnChar c (x :: (a' ++ c :: b)) = (x :: a') :: splitOnChar c b
    conv_lhs => rw [splitOnChar]
    rw [splitOnChar_append ha' b]
    dsimp only
    rw [if_neg hx]

/-- C10: the registry query is keyed by exactly two segments: a reference
with no slash queries namespace `library` with the whole reference as
image name; a reference with at least one slash queries its first segment
as namespace and its second segment as image name, dropping everything
after the second segment. -/
theorem dockerHubQueryKey_spec :
    (∀ image : Str, '/' ∉ image → dockerHubQueryKey image = ("library".toList, image)) ∧
    (∀ a b : Str, '/' ∉ a →
      dockerHubQueryKey (a ++ '/' :: b) = (a, b.takeWhile (fun x => x != '/'))) := by
  constructor
  · intro image h
    unfold dockerHubQueryKey
    rw [splitOnChar_not_mem h]
  · intro a b h
    unfold dockerHubQueryKey
    rw [splitOnChar_append h b]
    cases hr : splitOnChar '/' b with
    | nil => exact absurd hr (splitOnChar_ne_nil '/' b)
    | cons y ys =>
      dsimp only
      have := splitOnChar_headD_takeWhile '/' b
      rw [hr] at this
      simp only [List.headD_cons] at this
      rw [this]

/-- Witness for C10: a host-qualified multi-segment reference is keyed by
its first two segments only. -/
theorem dockerHubQueryKey_spec_witness :
    dockerHubQueryKey ("myhost".toList ++ '/' :: "team/app/img".toList) =
      ("myhost".toList, ("team/app/img".toList).takeWhile (fun x => x != '/')) :=
  dockerHubQueryKey_spec.2 "myhost".toList "team/app/img".toList (by decide)

/-! ## Claim C9: manifest save/load round trip -/

theorem decodeService_encodeService (s : Service) :
    decodeService (encodeService s) = some s := by
  obtain ⟨n, i, v⟩ := s
  rfl

theorem decodeServiceList_map (ss : List Service) :
    decodeServiceList (ss.map encodeService) = some ss := by
  induction ss with
  | nil => rfl
  | cons s t ih =>
    rw [List.map_cons]
    unfold decodeServiceList
    rw [decodeService_encodeService, ih]

/-- C9: decoding the JSON document written by `saveManifest` with
`loadManifest` returns the manifest unchanged: the release version is
preserved and the services appear as the same services in the same
order. -/
theorem manifest_roundTrip (m : Manifest) : loadManifest (saveManifest m) = some m := by
  obtain ⟨rv, ss⟩ := m
  have h1 : decodeServicesField
      [("release_version".toList, Json.str rv),
       ("services".toList, Json.arr (ss.map encodeService))] =
      decodeServiceList (ss.map encodeService) := rfl
  have h2 : decodeStrField
      [("release_version".toList, Json.str rv),
       ("services".toList, Json.arr (ss.map encodeService))] "release_version".toList =
      some rv := rfl
  unfold loadManifest saveManifest
  dsimp only
  rw [h1, h2, decodeServiceList_map]

end TodoReleaser
